import Mathlib

/-!
Shallow embedding of the control-and-perception layer of the
self-parking-car-evolution repository: the `Car` drive controller
(src/components/Car/Car.tsx) and the `Sensors` subsystem
(src/components/world/car/Sensors.tsx), together with the
leading+trailing throttle used by the sensor publish.
-/

/-- An exact value of the form `a + b * π` with rational `a`, `b`.
Angles such as `-π/4` (`⟨0, -(1/4)⟩`) and `2π/n` (`⟨0, 2/n⟩`) are
represented exactly, keeping equality decidable. -/
structure RQ where
  a : ℚ
  b : ℚ
  deriving DecidableEq

/-- Rational triple: positions, velocities, local ray endpoints. -/
abbrev Vec3Q := ℚ × ℚ × ℚ

/-- Euler rotation triple with components of the form `a + b·π`. -/
abbrev RotQ := RQ × RQ × RQ

/-- The six per-tick boolean input flags of the `Car` component, one per
tracked key (useKeyPress in Car.tsx lines 116-121). -/
structure Inputs where
  forward : Bool
  backward : Bool
  left : Bool
  right : Bool
  brake : Bool
  reset : Bool
  deriving DecidableEq

/-- React state of the `Car` component (Car.tsx lines 123-125):
steeringValue, engineForce, brakeForce. -/
structure ActuationState where
  steeringValue : ℚ
  engineForce : ℚ
  brakeForce : ℚ
  deriving DecidableEq

/-- Chassis pose and motion state, the target of the
`chassis.current.api.{position,velocity,angularVelocity,rotation}.set`
calls in the reset branch. -/
structure ChassisPose where
  position : Vec3Q
  velocity : Vec3Q
  angularVelocity : Vec3Q
  rotation : RotQ
  deriving DecidableEq

/-- Combined per-tick state of the `Car` component. -/
structure CarState where
  act : ActuationState
  chassis : ChassisPose
  deriving DecidableEq

/-- Car.tsx line 127. -/
def maxSteerVal : ℚ := 1/2

/-- Car.tsx line 128. -/
def maxForce : ℚ := 1000

/-- Car.tsx line 129. -/
def maxBrakeForce : ℚ := 100000

/-- The pose written by the reset branch (Car.tsx lines 155-164):
position (0,5,0), velocity (0,0,0), angularVelocity (0,0.5,0),
rotation (0, -π/4, 0). -/
def resetPose : ChassisPose :=
  { position := (0, 5, 0)
    velocity := (0, 0, 0)
    angularVelocity := (0, 1/2, 0)
    rotation := (⟨0, 0⟩, ⟨0, -(1/4)⟩, ⟨0, 0⟩) }

/-- One useFrame tick of the `Car` component (Car.tsx lines 131-165).
React state reads inside the callback see the pre-tick state `s`
(the render snapshot); each `setX` call schedules a write and the last
write to a field wins, so the writes are threaded sequentially.  The
`engineForce !== 0` guard on line 148 reads the pre-tick value
`s.act.engineForce`.  The chassis reset branch is modelled with the
chassis handle bound; the unbound handle is `resetChassisCall` below. -/
def carTick (controllable : Bool) (inp : Inputs) (s : CarState) : CarState :=
  if controllable = false then s
  else
    let a0 := s.act
    let a1 :=
      if inp.left && !inp.right then { a0 with steeringValue := maxSteerVal }
      else if inp.right && !inp.left then { a0 with steeringValue := -maxSteerVal }
      else { a0 with steeringValue := 0 }
    let a2 :=
      if inp.forward && !inp.backward then
        { a1 with brakeForce := 0, engineForce := -maxForce }
      else if inp.backward && !inp.forward then
        { a1 with brakeForce := 0, engineForce := maxForce }
      else if s.act.engineForce ≠ 0 then { a1 with engineForce := 0 }
      else a1
    let a3 := if inp.brake then { a2 with brakeForce := maxBrakeForce } else a2
    let a4 := if !inp.brake then { a3 with brakeForce := 0 } else a3
    let ch := if inp.reset then resetPose else s.chassis
    { act := a4, chassis := ch }

/-- Whether the tick invokes `setEngineForce` at all: the first two drive
branches always do, the third (clearing) branch fires only when the
pre-tick engineForce is nonzero (Car.tsx lines 142-150). -/
def engineForceSetThisTick (inp : Inputs) (s : CarState) : Bool :=
  (inp.forward && !inp.backward) || (inp.backward && !inp.forward) ||
    decide (s.act.engineForce ≠ 0)

example :
    (carTick true ⟨true, false, false, false, false, false⟩
      ⟨⟨0, 0, 0⟩, resetPose⟩).act.engineForce = -1000 := by decide

/-- The end-of-tick steeringValue depends only on the left/right flags. -/
theorem carTick_steeringValue (inp : Inputs) (s : CarState) :
    (carTick true inp s).act.steeringValue =
      if inp.left && !inp.right then maxSteerVal
      else if inp.right && !inp.left then -maxSteerVal
      else 0 := by
  obtain ⟨f, b, l, r, bk, rs⟩ := inp
  by_cases h : s.act.engineForce = 0 <;>
    cases f <;> cases b <;> cases l <;> cases r <;> cases bk <;> cases rs <;>
    simp [carTick, h]

/-- The end-of-tick brakeForce depends only on the brake flag: the zero
writes inside the drive branches are overwritten by lines 151-154. -/
theorem carTick_brakeForce (inp : Inputs) (s : CarState) :
    (carTick true inp s).act.brakeForce =
      if inp.brake then maxBrakeForce else 0 := by
  obtain ⟨f, b, l, r, bk, rs⟩ := inp
  by_cases h : s.act.engineForce = 0 <;>
    cases f <;> cases b <;> cases l <;> cases r <;> cases bk <;> cases rs <;>
    simp [carTick, h]

/-- The end-of-tick engineForce as a function of the drive flags (the
clearing branch is conditional on the pre-tick value, but the end-of-tick
value is 0 in both of its cases). -/
theorem carTick_engineForce (inp : Inputs) (s : CarState) :
    (carTick true inp s).act.engineForce =
      if inp.forward && !inp.backward then -maxForce
      else if inp.backward && !inp.forward then maxForce
      else 0 := by
  obtain ⟨f, b, l, r, bk, rs⟩ := inp
  by_cases h : s.act.engineForce = 0 <;>
    cases f <;> cases b <;> cases l <;> cases r <;> cases bk <;> cases rs <;>
    simp [carTick, h]

/-- The end-of-tick chassis pose depends only on the reset flag. -/
theorem carTick_chassis (inp : Inputs) (s : CarState) :
    (carTick true inp s).chassis =
      if inp.reset then resetPose else s.chassis := by
  obtain ⟨f, b, l, r, bk, rs⟩ := inp
  by_cases h : s.act.engineForce = 0 <;>
    cases f <;> cases b <;> cases l <;> cases r <;> cases bk <;> cases rs <;>
    simp [carTick, h]

/-- A concrete car state used by witnesses: zero actuation, origin pose. -/
def sampleCarState : CarState :=
  ⟨⟨0, 0, 0⟩, ⟨(0, 0, 0), (0, 0, 0), (0, 0, 0), (⟨0, 0⟩, ⟨0, 0⟩, ⟨0, 0⟩)⟩⟩

/-- A car state whose pre-tick engineForce is the full forward force. -/
def drivingCarState : CarState :=
  ⟨⟨0, -1000, 0⟩, ⟨(0, 0, 0), (0, 0, 0), (0, 0, 0), (⟨0, 0⟩, ⟨0, 0⟩, ⟨0, 0⟩)⟩⟩

/-- C2: forward-only sets engineForce to `-maxForce`, backward-only to
`+maxForce`; on a tick where the forward/backward flags are equal (neither
or both held) the end-of-tick engineForce is 0, and `setEngineForce` is
invoked on such a tick exactly when the pre-tick engineForce is nonzero;
across two ticks, a forward tick leaves the force at `-maxForce` (nonzero,
i.e. not yet cleared) and the following neutral tick clears it, so the
force reads as cleared one tick after the inputs neutralize. -/
theorem claim_c2_engineForce (inp : Inputs) (s : CarState) :
    (inp.forward = true → inp.backward = false →
      (carTick true inp s).act.engineForce = -maxForce) ∧
    (inp.backward = true → inp.forward = false →
      (carTick true inp s).act.engineForce = maxForce) ∧
    (inp.forward = inp.backward →
      (carTick true inp s).act.engineForce = 0 ∧
      engineForceSetThisTick inp s = decide (s.act.engineForce ≠ 0)) ∧
    (∀ inpF inpN : Inputs, ∀ s0 : CarState,
      inpF.forward = true → inpF.backward = false →
      inpN.forward = false → inpN.backward = false →
      (carTick true inpF s0).act.engineForce = -maxForce ∧
      (carTick true inpF s0).act.engineForce ≠ 0 ∧
      (carTick true inpN (carTick true inpF s0)).act.engineForce = 0) := by
  refine ⟨fun hf hb => ?_, fun hb hf => ?_, fun hfb => ⟨?_, ?_⟩,
    fun inpF inpN s0 hf hb hnf hnb => ⟨?_, ?_, ?_⟩⟩
  · simp [carTick_engineForce, hf, hb]
  · simp [carTick_engineForce, hf, hb]
  · cases hfw : inp.forward <;> rw [hfw] at hfb <;>
      simp [carTick_engineForce, hfw, hfb.symm]
  · cases hfw : inp.forward <;> rw [hfw] at hfb <;>
      simp [engineForceSetThisTick, hfw, hfb.symm]
  · simp [carTick_engineForce, hf, hb]
  · simp [carTick_engineForce, hf, hb, maxForce]
  · simp [carTick_engineForce, hnf, hnb]

/-- Witness for C2 at concrete inputs: a forward-only tick from rest, then
a neutral tick, evaluated at explicit states. -/
theorem claim_c2_engineForce_witness :
    (carTick true ⟨true, false, false, false, false, false⟩ sampleCarState).act.engineForce
      = -maxForce ∧
    (carTick true ⟨false, false, false, false, false, false⟩
      (carTick true ⟨true, false, false, false, false, false⟩ sampleCarState)).act.engineForce
      = 0 :=
  ⟨((claim_c2_engineForce ⟨true, false, false, false, false, false⟩
      sampleCarState).2.2.2 ⟨true, false, false, false, false, false⟩
      ⟨false, false, false, false, false, false⟩ sampleCarState rfl rfl rfl rfl).1,
   ((claim_c2_engineForce ⟨true, false, false, false, false, false⟩
      sampleCarState).2.2.2 ⟨true, false, false, false, false, false⟩
      ⟨false, false, false, false, false, false⟩ sampleCarState rfl rfl rfl rfl).2.2⟩

/-- C6: on a tick where reset is held the chassis is set to exactly
position (0,5,0), velocity (0,0,0), angularVelocity (0,0.5,0), rotation
(0, -π/4, 0) regardless of prior state, and the reset does not alter the
actuation fields: the actuation outcome is the same as the identical tick
with the reset flag cleared. -/
theorem claim_c6_reset (inp : Inputs) (s : CarState) (h : inp.reset = true) :
    (carTick true inp s).chassis =
      ⟨(0, 5, 0), (0, 0, 0), (0, 1/2, 0), (⟨0, 0⟩, ⟨0, -(1/4)⟩, ⟨0, 0⟩)⟩ ∧
    (carTick true inp s).act = (carTick true { inp with reset := false } s).act := by
  constructor
  · rw [carTick_chassis, h]
    rfl
  · simp [carTick]

/-- Witness for C6: reset held together with other inputs, from a moving
state. -/
theorem claim_c6_reset_witness :
    (carTick true ⟨true, false, true, false, true, true⟩ drivingCarState).chassis =
      ⟨(0, 5, 0), (0, 0, 0), (0, 1/2, 0), (⟨0, 0⟩, ⟨0, -(1/4)⟩, ⟨0, 0⟩)⟩ ∧
    (carTick true ⟨true, false, true, false, true, true⟩ drivingCarState).act =
      (carTick true ⟨true, false, true, false, true, false⟩ drivingCarState).act :=
  claim_c6_reset ⟨true, false, true, false, true, true⟩ drivingCarState rfl

/-- C7: for all 4 combinations of the left and right flags, the steering
output is `+maxSteerVal` for left-only, `-maxSteerVal` for right-only and
`0` otherwise (in particular when both are held), independently of the
remaining flags and of the prior state. -/
theorem claim_c7_steering (s : CarState) (f b bk rs : Bool) :
    (carTick true ⟨f, b, true, false, bk, rs⟩ s).act.steeringValue = maxSteerVal ∧
    (carTick true ⟨f, b, false, true, bk, rs⟩ s).act.steeringValue = -maxSteerVal ∧
    (carTick true ⟨f, b, true, true, bk, rs⟩ s).act.steeringValue = 0 ∧
    (carTick true ⟨f, b, false, false, bk, rs⟩ s).act.steeringValue = 0 := by
  refine ⟨?_, ?_, ?_, ?_⟩ <;> simp [carTick_steeringValue]

/-- C8: the end-of-tick brakeForce is `maxBrakeForce` when brake is held
and 0 otherwise, and any two ticks agreeing on the brake flag produce the
same brakeForce whatever their drive/steer flags and prior states. -/
theorem claim_c8_brake (inp : Inputs) (s : CarState) :
    (carTick true inp s).act.brakeForce = (if inp.brake then maxBrakeForce else 0) ∧
    ∀ inp2 : Inputs, ∀ s2 : CarState, inp.brake = inp2.brake →
      (carTick true inp s).act.brakeForce = (carTick true inp2 s2).act.brakeForce := by
  refine ⟨carTick_brakeForce inp s, fun inp2 s2 h => ?_⟩
  rw [carTick_brakeForce, carTick_brakeForce, h]

/-- Witness for C8: brake held with forward+left versus brake held with
backward+right from a different state — equal brake outputs. -/
theorem claim_c8_brake_witness :
    (carTick true ⟨true, false, true, false, true, false⟩ sampleCarState).act.brakeForce
      = (if true then maxBrakeForce else 0) ∧
    (carTick true ⟨true, false, true, false, true, false⟩ sampleCarState).act.brakeForce
      = (carTick true ⟨false, true, false, true, true, false⟩ drivingCarState).act.brakeForce :=
  ⟨(claim_c8_brake ⟨true, false, true, false, true, false⟩ sampleCarState).1,
   (claim_c8_brake ⟨true, false, true, false, true, false⟩ sampleCarState).2
     ⟨false, true, false, true, true, false⟩ drivingCarState rfl⟩

/-- A JavaScript value stored in a `SensorValuesType` slot: the array is
created with `new Array(sensorsNum).fill(undefined)` (Sensors.tsx line 20)
and `onRay` overwrites slots with a number or `null` (lines 32-37). -/
inductive SensorValue where
  | undef : SensorValue
  | null : SensorValue
  | num : ℚ → SensorValue
  deriving DecidableEq

/-- The error raised by `new Array(n)` for a negative length: a JS
RangeError ("Invalid array length").  Sensors.tsx contains no validation
of its own and no error named InvalidConfiguration. -/
inductive JsConstructError where
  | rangeError : JsConstructError
  deriving DecidableEq

/-- The props of one `SensorRay` element built by Sensors.tsx lines 53-65:
its index, the local segment endpoints passed as `from` and `to`, and the
rotation `angleX = angleStep * index` about the up axis. -/
structure SensorRayProps where
  index : ℕ
  fromLocal : Vec3Q
  toLocal : Vec3Q
  angleX : RQ
  deriving DecidableEq

/-- Result of constructing the `Sensors` component body: the distance
array and the list of `SensorRay` elements. -/
structure SensorsInit where
  sensorDistances : List SensorValue
  sensorRays : List SensorRayProps
  deriving DecidableEq

instance {ε α : Type} [DecidableEq ε] [DecidableEq α] :
    DecidableEq (Except ε α) := fun x y =>
  match x, y with
  | .error e, .error e2 => decidable_of_iff (e = e2) (by simp)
  | .ok a, .ok b => decidable_of_iff (a = b) (by simp)
  | .error _, .ok _ => isFalse (by simp)
  | .ok _, .error _ => isFalse (by simp)

/-- Construction of the `Sensors` component body (Sensors.tsx lines
17-66) for a given `sensorsNum`, with the constants SENSOR_HEIGHT `hgt`
and SENSOR_DISTANCE `dst` as parameters.  `new Array(sensorsNum)` on
line 20 throws a RangeError when `sensorsNum < 0`, before any ray is
built; otherwise the distance array is filled with `undefined`,
`angleStep = 2π / sensorsNum`, and ray `i` is given
`from = (0, hgt, 0)`, `to = (0, hgt, dst)` and `angleX = angleStep · i`
(stored exactly as the coefficient of π: `2 · i / sensorsNum`). -/
def sensorsConstruct (hgt dst : ℚ) (sensorsNum : ℤ) :
    Except JsConstructError SensorsInit :=
  if sensorsNum < 0 then .error .rangeError
  else
    let n := sensorsNum.toNat
    .ok
      { sensorDistances := List.replicate n .undef
        sensorRays :=
          (List.range n).map fun i =>
            { index := i
              fromLocal := (0, hgt, 0)
              toLocal := (0, hgt, dst)
              angleX := ⟨0, 2 * (i : ℚ) / (sensorsNum : ℚ)⟩ } }

example : sensorsConstruct 1 5 0 = .ok ⟨[], []⟩ := by decide
example : sensorsConstruct 1 5 (-3) = .error .rangeError := by decide

/-- Counterexample to C3: at `sensorsNum = 0` (which satisfies
`sensorsNum ≤ 0`) the construction raises nothing at all — it succeeds
with an empty distance array and zero rays, so no InvalidConfiguration
(nor any other error) is raised for every `sensorsNum ≤ 0`. -/
theorem claim_c3_counterexample :
    sensorsConstruct 1 5 0 = .ok ⟨[], []⟩ ∧
    sensorsConstruct 1 5 0 ≠ .error .rangeError := by
  constructor
  · decide
  · decide

/-- C3 amended: only a strictly negative `sensorsNum` fails fast, and the
failure is the JS RangeError thrown by `new Array(sensorsNum)` on line 20
— before any ray is built — not an InvalidConfiguration; `sensorsNum = 0`
does not fail: it yields an empty distance array and zero rays. -/
theorem claim_c3_amended (hgt dst : ℚ) (n : ℤ) (h : n < 0) :
    sensorsConstruct hgt dst n = .error .rangeError ∧
    sensorsConstruct hgt dst 0 = .ok ⟨[], []⟩ := by
  constructor
  · rw [sensorsConstruct, if_pos h]
  · rw [sensorsConstruct, if_neg (by omega)]
    rfl

/-- Witness for the amended C3 at `sensorsNum = -1`. -/
theorem claim_c3_amended_witness :
    sensorsConstruct 1 5 (-1) = .error .rangeError ∧
    sensorsConstruct 1 5 0 = .ok ⟨[], []⟩ :=
  claim_c3_amended 1 5 (-1) (by decide)

/-- C9: for every `sensorsNum ≥ 1` the construction succeeds and yields
exactly `sensorsNum` rays where ray `i` carries index `i`, runs from
local `(0, H, 0)` to local `(0, H, D)` and is rotated by
`angleX = (2π / sensorsNum) · i`, in index order. -/
theorem claim_c9_sensor_ring (hgt dst : ℚ) (n : ℕ) (h : 1 ≤ n) :
    ∃ init : SensorsInit,
      sensorsConstruct hgt dst (n : ℤ) = .ok init ∧
      init.sensorRays.length = n ∧
      ∀ i : ℕ, i < n →
        init.sensorRays[i]? =
          some ⟨i, (0, hgt, 0), (0, hgt, dst), ⟨0, 2 * (i : ℚ) / (n : ℚ)⟩⟩ := by
  have hn : ¬ ((n : ℤ) < 0) := by omega
  rw [sensorsConstruct, if_neg hn]
  refine ⟨_, rfl, ?_, ?_⟩
  · simp
  · intro i hi
    simp [Int.toNat_natCast, List.getElem?_range, hi]

/-- Witness for C9 at `sensorsNum = 8`: the theorem instance, plus the
fully evaluated ring whose 8 rays carry the angles
0, π/4, π/2, 3π/4, π, 5π/4, 3π/2, 7π/4 in index order (each angle stored
as its coefficient of π). -/
theorem claim_c9_sensor_ring_witness :
    (∃ init : SensorsInit,
      sensorsConstruct 1 5 ((8 : ℕ) : ℤ) = .ok init ∧
      init.sensorRays.length = 8 ∧
      ∀ i : ℕ, i < 8 →
        init.sensorRays[i]? =
          some ⟨i, (0, 1, 0), (0, 1, 5), ⟨0, 2 * (i : ℚ) / (8 : ℚ)⟩⟩) ∧
    sensorsConstruct 1 5 ((8 : ℕ) : ℤ) =
      .ok ⟨List.replicate 8 .undef,
        [⟨0, (0, 1, 0), (0, 1, 5), ⟨0, 0⟩⟩,
         ⟨1, (0, 1, 0), (0, 1, 5), ⟨0, 1/4⟩⟩,
         ⟨2, (0, 1, 0), (0, 1, 5), ⟨0, 1/2⟩⟩,
         ⟨3, (0, 1, 0), (0, 1, 5), ⟨0, 3/4⟩⟩,
         ⟨4, (0, 1, 0), (0, 1, 5), ⟨0, 1⟩⟩,
         ⟨5, (0, 1, 0), (0, 1, 5), ⟨0, 5/4⟩⟩,
         ⟨6, (0, 1, 0), (0, 1, 5), ⟨0, 3/2⟩⟩,
         ⟨7, (0, 1, 0), (0, 1, 5), ⟨0, 7/4⟩⟩]⟩ := by
  refine ⟨claim_c9_sensor_ring 1 5 8 (by norm_num), ?_⟩
  rw [sensorsConstruct, if_neg (by norm_num)]
  have h : Int.toNat ((8 : ℕ) : ℤ) = 8 := rfl
  simp only [h, List.range_succ, List.range_zero, List.map_append, List.map_cons,
    List.map_nil, List.nil_append]
  norm_num [SensorsInit.mk.injEq, SensorRayProps.mk.injEq, RQ.mk.injEq]

/-- Modelled from the spec: the leading+trailing throttle wrapping
`onSensorsCallback` (Sensors.tsx lines 27-30 uses lodash `throttle` with
`leading: true, trailing: true`; the lodash implementation and the
`ON_SENSORS_THROTTLE_TIMEOUT` constant are not under src/).  Following
the spec's timer state machine, the throttle is either idle, or inside
an open window that closes at `deadline`, holding the latest coalesced
request value (if any) to fire on the trailing edge. -/
inductive TState (α : Type) where
  | idle : TState α
  | window : Option α → ℕ → TState α
  deriving DecidableEq

/-- Modelled from the spec: bring the throttle state up to date at time
`t`, firing any timer whose deadline has passed.  A pending value fires
on the trailing edge exactly at the window end, which opens a fresh
window (a request right after a trailing fire is not a leading edge); a
window that expires with nothing pending falls back to idle. -/
def throttleDrain {α : Type} (W t : ℕ) : TState α → List (ℕ × α) × TState α
  | .idle => ([], .idle)
  | .window p d =>
    if t < d then ([], .window p d)
    else
      match p with
      | none => ([], .idle)
      | some v => if t < d + W then ([(d, v)], .window none (d + W))
                  else ([(d, v)], .idle)

/-- Modelled from the spec: a publish request at time `t` with value `v`.
After an idle period it fires immediately (leading edge) and opens a
window of length `W`; inside an open window it only replaces the pending
trailing value. -/
def throttleReq {α : Type} (W t : ℕ) (v : α) (s : TState α) :
    List (ℕ × α) × TState α :=
  let (out, s1) := throttleDrain W t s
  match s1 with
  | .idle => (out ++ [(t, v)], .window none (t + W))
  | .window _ d => (out, .window (some v) d)

/-- Modelled from the spec: after the last request, the still-scheduled
timer eventually fires the pending trailing value at the window end. -/
def throttleFlush {α : Type} : TState α → List (ℕ × α)
  | .idle => []
  | .window none _ => []
  | .window (some v) d => [(d, v)]

/-- Consumer invocations, as (time, value) pairs, produced by feeding the
time-ordered requests `reqs` to the throttle starting in state `s`, with
the final pending timer allowed to fire. -/
def throttleRunAux {α : Type} (W : ℕ) (s : TState α) :
    List (ℕ × α) → List (ℕ × α)
  | [] => throttleFlush s
  | (t, v) :: rs =>
    let (out, s1) := throttleReq W t v s
    out ++ throttleRunAux W s1 rs

/-- Consumer invocations for a request sequence starting from idle. -/
def throttleRun {α : Type} (W : ℕ) (reqs : List (ℕ × α)) : List (ℕ × α) :=
  throttleRunAux W .idle reqs

/-- Request times are nondecreasing and bounded below by `lo`. -/
def SortedFrom {α : Type} (lo : ℕ) : List (ℕ × α) → Prop
  | [] => True
  | r :: rs => lo ≤ r.1 ∧ SortedFrom r.1 rs

/-- Consecutive invocation times are at least `W` apart (`prev` is the
time of the invocation just before the list, if any). -/
def GapOK (W : ℕ) : Option ℕ → List ℕ → Prop
  | _, [] => True
  | none, t :: ts => GapOK W (some t) ts
  | some p, t :: ts => p + W ≤ t ∧ GapOK W (some t) ts

example : throttleRun 50 [(0, 0), (10, 1), (20, 2), (30, 3)] = [(0, 0), (50, 3)] := by
  decide

/-- Invariant tying the throttle state to the time `prev` of the most
recent invocation, valid when every future request time is ≥ `lo`:
an idle throttle was last invoked at least `W` before `lo`, and an open
window closing at `d` was opened by an invocation at `d - W`. -/
def TInv {α : Type} (W lo : ℕ) (prev : Option ℕ) : TState α → Prop
  | .idle => ∀ p, prev = some p → p + W ≤ lo
  | .window _ d => prev = some (d - W) ∧ W ≤ d

/-- A gap check for `t :: ts` follows from the gap at `t` and a gap check
for `ts` continuing from `t`. -/
theorem gapOK_cons {W t : ℕ} {ts : List ℕ} {prev : Option ℕ}
    (h : ∀ p, prev = some p → p + W ≤ t) (h2 : GapOK W (some t) ts) :
    GapOK W prev (t :: ts) := by
  cases prev with
  | none => exact h2
  | some p => exact ⟨h p rfl, h2⟩

/-- Rate limiting, in invariant form: from any state consistent with the
last invocation time, time-ordered requests produce invocations spaced at
least `W` apart. -/
theorem throttleRunAux_gapOK {α : Type} (W : ℕ) (reqs : List (ℕ × α)) :
    ∀ (s : TState α) (lo : ℕ) (prev : Option ℕ),
      SortedFrom lo reqs → TInv W lo prev s →
      GapOK W prev ((throttleRunAux W s reqs).map Prod.fst) := by
  induction reqs with
  | nil =>
    intro s lo prev _ hinv
    cases s with
    | idle =>
      simp only [throttleRunAux, throttleFlush, List.map_nil]
      cases prev <;> trivial
    | window p d =>
      cases p with
      | none =>
        simp only [throttleRunAux, throttleFlush, List.map_nil]
        cases prev <;> trivial
      | some v =>
        obtain ⟨hprev, hWd⟩ := hinv
        simp only [throttleRunAux, throttleFlush, List.map_cons, List.map_nil]
        refine gapOK_cons (fun q hq => ?_) trivial
        rw [hprev] at hq
        injection hq with hq
        omega
  | cons r rs ih =>
    obtain ⟨t, v⟩ := r
    intro s lo prev hs hinv
    obtain ⟨hlo, hrest⟩ := hs
    cases s with
    | idle =>
      simp only [throttleRunAux, throttleReq, throttleDrain, List.nil_append,
        List.cons_append, List.map_cons]
      refine gapOK_cons (fun q hq => ?_) ?_
      · exact (hinv q hq).trans hlo
      · exact ih (.window none (t + W)) t (some t)
          hrest ⟨by rw [Nat.add_sub_cancel], Nat.le_add_left W t⟩
    | window p d =>
      obtain ⟨hprev, hWd⟩ := hinv
      by_cases hd : t < d
      · simp only [throttleRunAux, throttleReq, throttleDrain, if_pos hd,
          List.nil_append]
        exact ih (.window (some v) d) t prev hrest ⟨hprev, hWd⟩
      · cases p with
        | none =>
          simp only [throttleRunAux, throttleReq, throttleDrain, if_neg hd,
            List.nil_append, List.map_cons]
          refine gapOK_cons (fun q hq => ?_) ?_
          · rw [hprev] at hq
            injection hq with hq
            omega
          · exact ih (.window none (t + W)) t (some t)
              hrest ⟨by rw [Nat.add_sub_cancel], Nat.le_add_left W t⟩
        | some u =>
          by_cases hdw : t < d + W
          · simp only [throttleRunAux, throttleReq, throttleDrain, if_neg hd,
              if_pos hdw, List.cons_append, List.nil_append, List.map_cons]
            refine gapOK_cons (fun q hq => ?_) ?_
            · rw [hprev] at hq
              injection hq with hq
              omega
            · exact ih (.window (some v) (d + W)) t (some d)
                hrest ⟨by rw [Nat.add_sub_cancel], by omega⟩
          · simp only [throttleRunAux, throttleReq, throttleDrain, if_neg hd,
              if_neg hdw, List.cons_append, List.nil_append, List.map_cons]
            refine gapOK_cons (fun q hq => ?_) ?_
            · rw [hprev] at hq
              injection hq with hq
              omega
            · refine gapOK_cons (fun q hq => ?_) ?_
              · injection hq with hq
                omega
              · exact ih (.window none (t + W)) t (some t)
                  hrest ⟨by rw [Nat.add_sub_cancel], Nat.le_add_left W t⟩

/-- The pending trailing value after requests arrive inside an open
window: the value of the last such request, else the prior pending one. -/
def lastPending {α : Type} (p : Option α) (rest : List (ℕ × α)) : Option α :=
  match rest.getLast? with
  | some r => some r.2
  | none => p

/-- Requests inside an open window produce no invocation; they only
update the pending trailing value, which fires at the window end. -/
theorem throttleRunAux_inWindow {α : Type} (W d : ℕ) :
    ∀ (rest : List (ℕ × α)) (p : Option α), (∀ r ∈ rest, r.1 < d) →
      throttleRunAux W (.window p d) rest =
        throttleFlush (TState.window (lastPending p rest) d) := by
  intro rest
  induction rest with
  | nil => intro p _; rfl
  | cons r rs ih =>
    obtain ⟨t, v⟩ := r
    intro p hb
    have ht : t < d := hb (t, v) (List.mem_cons_self _ _)
    simp only [throttleRunAux, throttleReq, throttleDrain, if_pos ht,
      List.nil_append]
    rw [ih (some v) (fun q hq => hb q (List.mem_cons_of_mem _ hq))]
    cases rs with
    | nil => rfl
    | cons r2 rs2 =>
      cases h : (r2 :: rs2).getLast? with
      | none => simp at h
      | some q => simp [lastPending, List.getLast?_cons_cons, h]

/-- C1 (throttle contract, throttle modelled from the spec): (i) for every
time-ordered request sequence the consumer invocations are spaced at least
one window `W` apart; (ii) a request arriving while the throttle is idle
fires immediately with that request's value (leading edge); (iii) a burst
starting after idle whose further requests all fall inside the first
window produces exactly two invocations — the leading one at the burst
start and one trailing invocation at the window end carrying the value of
the last request of the burst; (iv) in particular, requests at
t = 0, 10, 20, 30 with a 50 ms window produce exactly the two invocations
(0, first value) and (50, value as of t = 30). -/
theorem claim_c1_throttle :
    (∀ (α : Type) (W : ℕ) (reqs : List (ℕ × α)), SortedFrom 0 reqs →
      GapOK W none ((throttleRun W reqs).map Prod.fst)) ∧
    (∀ (α : Type) (W t : ℕ) (v : α),
      throttleReq W t v .idle = ([(t, v)], .window none (t + W))) ∧
    (∀ (α : Type) (W t0 : ℕ) (v0 : α) (rest : List (ℕ × α)) (tl : ℕ) (vl : α),
      (∀ r ∈ rest, t0 ≤ r.1 ∧ r.1 < t0 + W) → rest.getLast? = some (tl, vl) →
      throttleRun W ((t0, v0) :: rest) = [(t0, v0), (t0 + W, vl)]) ∧
    throttleRun 50 [(0, (0 : ℕ)), (10, 1), (20, 2), (30, 3)] = [(0, 0), (50, 3)] := by
  refine ⟨?_, ?_, ?_, by decide⟩
  · intro α W reqs hs
    exact throttleRunAux_gapOK W reqs .idle 0 none hs (fun p hp => by simp at hp)
  · intro α W t v
    rfl
  · intro α W t0 v0 rest tl vl hb hlast
    show throttleRunAux W .idle ((t0, v0) :: rest) = _
    simp only [throttleRunAux, throttleReq, throttleDrain, List.nil_append,
      List.cons_append]
    rw [throttleRunAux_inWindow W (t0 + W) rest none (fun q hq => (hb q hq).2)]
    simp [lastPending, hlast, throttleFlush]

/-- Witness for C1: the rate-limit and burst statements applied to the
concrete request sequence t = 0, 10, 20, 30 with window 50. -/
theorem claim_c1_throttle_witness :
    GapOK 50 none ((throttleRun 50 [(0, (0 : ℕ)), (10, 1), (20, 2), (30, 3)]).map
      Prod.fst) ∧
    throttleRun 50 ((0, (0 : ℕ)) :: [(10, 1), (20, 2), (30, 3)]) =
      [(0, 0), (0 + 50, 3)] :=
  ⟨claim_c1_throttle.1 ℕ 50 [(0, 0), (10, 1), (20, 2), (30, 3)]
      (by simp [SortedFrom]),
   claim_c1_throttle.2.2.1 ℕ 50 0 0 [(10, 1), (20, 2), (30, 3)] 30 3
      (by decide) rfl⟩

/-- The JS exception thrown by a member access on `undefined`. -/
inductive JsError where
  | typeError : JsError
  deriving DecidableEq

/-- The reset branch (Car.tsx lines 155-164) executed against the current
chassis binding: `chassis.current` is typed `THREE.Object3D | undefined`,
and with no handle bound the member access `chassis.current.api` throws a
TypeError (there is no guard and no optional chaining); with the handle
bound the four setters write `resetPose`. -/
def resetChassisCall : Option ChassisPose → Except JsError ChassisPose
  | none => .error .typeError
  | some _ => .ok resetPose

/-- One actuation call pushed through the physics collaborator api
(Car.tsx lines 167-181). -/
inductive ApiCall where
  | applyEngineForce : ℚ → ℕ → ApiCall
  | setSteeringValue : ℚ → ℕ → ApiCall
  | setBrake : ℚ → ℕ → ApiCall
  deriving DecidableEq

/-- Modelled from the spec: the `useRaycastVehicle` api of the external
physics collaborator (its implementation is not under src/); per the
spec's collaborator contract, a call made before the physics handles are
bound is absorbed as a no-op and never throws, and once bound the call is
applied. -/
def apiDispatch (bound : Bool) (applied : List ApiCall) (c : ApiCall) :
    Except JsError (List ApiCall) :=
  if bound then .ok (applied ++ [c]) else .ok applied

/-- Counterexample to C5: a reset issued while the chassis handle is not
yet bound is not absorbed as a no-op — dereferencing the missing handle
throws a TypeError. -/
theorem claim_c5_counterexample :
    resetChassisCall none = Except.error JsError.typeError ∧
    resetChassisCall none ≠ Except.ok resetPose := by
  constructor
  · rfl
  · decide

/-- C5 amended: engine-force, steering and brake pushes through the
physics api are absorbed as no-ops before the handles are bound and take
effect normally once bound — but a reset issued while the chassis handle
is unbound is the exception: it throws a TypeError instead of being
absorbed; once the handle is bound, reset takes effect normally. -/
theorem claim_c5_amended :
    (∀ (applied : List ApiCall) (c : ApiCall),
      apiDispatch false applied c = .ok applied) ∧
    (∀ (applied : List ApiCall) (c : ApiCall),
      apiDispatch true applied c = .ok (applied ++ [c])) ∧
    (∀ cp : ChassisPose, resetChassisCall (some cp) = .ok resetPose) ∧
    resetChassisCall none = .error .typeError :=
  ⟨fun _ _ => rfl, fun _ _ => rfl, fun _ => rfl, rfl⟩

/-- Conversion done by `onRay` (Sensors.tsx lines 33-35): a numeric
distance is stored as a number, anything else is stored as `null`. -/
def toSensorValue (d : Option ℚ) : SensorValue :=
  match d with
  | some x => .num x
  | none => .null

/-- Whether a slot holds a number or null (the element type C10 claims
for delivered vectors); the initial `undefined` fill is neither. -/
def numOrNull : SensorValue → Bool
  | .undef => false
  | .null => true
  | .num _ => true

/-- Run-time state of the `Sensors` component: the mutable array
`sensorDistances.current`, the throttle state, and the log of consumer
invocations as (time, delivered vector) pairs.  `onSensorsCallback`
(lines 23-25) reads `sensorDistances.current` at fire time; since every
write is immediately followed by a publish request, the array at any
trailing fire equals the post-write array carried by the latest request
before it, so the throttle can carry the delivered vector as its value. -/
structure SamplerState where
  dist : List SensorValue
  ts : TState (List SensorValue)
  log : List (ℕ × List SensorValue)
  deriving DecidableEq

/-- One `onRay(index, distance)` callback at time `ev.1` (Sensors.tsx
lines 32-37): write slot `ev.2.1`, then invoke the throttled publish. -/
def onRayStep (W : ℕ) (s : SamplerState) (ev : ℕ × ℕ × Option ℚ) :
    SamplerState :=
  let dist1 := s.dist.set ev.2.1 (toSensorValue ev.2.2)
  let (out, ts1) := throttleReq W ev.1 dist1 s.ts
  { dist := dist1, ts := ts1, log := s.log ++ out }

/-- Initial state: `new Array(sensorsNum).fill(undefined)` (line 20) and
an idle throttle (lines 27-30). -/
def samplerInit (n : ℕ) : SamplerState :=
  { dist := List.replicate n .undef, ts := .idle, log := [] }

/-- The sampler state after a sequence of `onRay` events. -/
def samplerRun (W n : ℕ) (evs : List (ℕ × ℕ × Option ℚ)) : SamplerState :=
  evs.foldl (onRayStep W) (samplerInit n)

/-- All consumer deliveries for an event sequence, with the pending
trailing timer allowed to fire at the end. -/
def samplerOutput (W n : ℕ) (evs : List (ℕ × ℕ × Option ℚ)) :
    List (ℕ × List SensorValue) :=
  (samplerRun W n evs).log ++ throttleFlush (samplerRun W n evs).ts

example :
    samplerOutput 50 2 [(0, 0, some 7), (0, 1, none)] =
      [(0, [.num 7, .undef]), (50, [.num 7, .null])] := by decide

/-- Counterexample to C4: first tick of a 2-ray ring, ray 0 reporting
distance 7 and ray 1 then reporting a miss, both at t = 0.  The
leading-edge publish fires synchronously inside ray 0's `onRay`, before
ray 1's cast has written: the consumer receives the vector
[7, undefined], in which only the single ray 0 of the current tick has
been updated (slot 1 still holds the initial fill, not the null ray 1
writes); the tick's complete vector [7, null] only goes out with the
trailing fire at t = 50. -/
theorem claim_c4_counterexample :
    samplerOutput 50 2 [(0, 0, some 7), (0, 1, none)] =
      [(0, [.num 7, .undef]), (50, [.num 7, .null])] ∧
    ([SensorValue.num 7, SensorValue.undef] : List SensorValue) ≠
      [SensorValue.num 7, SensorValue.null] := by
  constructor
  · decide
  · decide

/-- If the throttle was idle, a request both fires immediately and opens
a window; in every other case it leaves the window open with the request
value pending.  Either way the resulting state is an open window. -/
theorem throttleReq_window {α : Type} (W t : ℕ) (v : α) (s : TState α) :
    ∃ p d, (throttleReq W t v s).2 = TState.window p d := by
  rcases h : throttleDrain W t s with ⟨out, s1⟩
  cases s1 with
  | idle => exact ⟨none, t + W, by simp [throttleReq, h]⟩
  | window q d => exact ⟨some v, d, by simp [throttleReq, h]⟩

/-- C4 amended: every single `onRay` write evaluates a publish attempt of
its own — the attempt is not deferred until all rays of the tick have
written (after every write the throttle is inside an open window), and
when the throttle was idle the attempt fires immediately, delivering the
array with only this ray's write applied to the pre-existing slots. -/
theorem claim_c4_amended :
    (∀ (W : ℕ) (s : SamplerState) (ev : ℕ × ℕ × Option ℚ),
      ∃ p d, (onRayStep W s ev).ts = TState.window p d) ∧
    (∀ (W : ℕ) (s : SamplerState) (ev : ℕ × ℕ × Option ℚ), s.ts = .idle →
      (onRayStep W s ev).log =
        s.log ++ [(ev.1, s.dist.set ev.2.1 (toSensorValue ev.2.2))] ∧
      (onRayStep W s ev).dist = s.dist.set ev.2.1 (toSensorValue ev.2.2)) := by
  constructor
  · intro W s ev
    obtain ⟨p, d, h⟩ :=
      throttleReq_window W ev.1 (s.dist.set ev.2.1 (toSensorValue ev.2.2)) s.ts
    refine ⟨p, d, ?_⟩
    rcases hr : throttleReq W ev.1 (s.dist.set ev.2.1 (toSensorValue ev.2.2)) s.ts
      with ⟨out, ts1⟩
    rw [hr] at h
    simp only [onRayStep, hr]
    exact h
  · intro W s ev hts
    constructor
    · simp [onRayStep, throttleReq, throttleDrain, hts]
    · simp [onRayStep, throttleReq, throttleDrain, hts]

/-- Witness for the amended C4: the first `onRay` of a fresh 2-ray ring
fires immediately, delivering only its own write over the initial fill. -/
theorem claim_c4_amended_witness :
    (onRayStep 50 (samplerInit 2) (0, 0, some 7)).log =
      (samplerInit 2).log ++
        [(0, (samplerInit 2).dist.set 0 (toSensorValue (some 7)))] ∧
    (onRayStep 50 (samplerInit 2) (0, 0, some 7)).dist =
      (samplerInit 2).dist.set 0 (toSensorValue (some 7)) :=
  claim_c4_amended.2 50 (samplerInit 2) (0, 0, some 7) rfl

/-- The trailing value pending inside the throttle, when present, is
always the value of the latest request. -/
theorem throttleReq_pending {α : Type} (W t : ℕ) (v : α) (s : TState α) :
    ∀ v2 d, (throttleReq W t v s).2 = .window (some v2) d → v2 = v := by
  intro v2 d h
  rcases hr : throttleDrain W t s with ⟨out, s1⟩
  simp only [throttleReq, hr] at h
  cases s1 with
  | idle => simp at h
  | window q d2 =>
    simp only [TState.window.injEq, Option.some.injEq] at h
    exact h.1.symm

/-- Every value a request emits is either a previously pending trailing
value (fired by the drain) or the request's own value (leading edge). -/
theorem throttleReq_out {α : Type} (W t : ℕ) (v : α) (s : TState α) :
    ∀ y ∈ (throttleReq W t v s).1,
      (∃ u d, s = TState.window (some u) d ∧ y.2 = u) ∨ y.2 = v := by
  intro y hy
  cases s with
  | idle =>
    simp [throttleReq, throttleDrain] at hy
    right; rw [hy]
  | window p d =>
    by_cases hd : t < d
    · simp [throttleReq, throttleDrain, if_pos hd] at hy
    · cases p with
      | none =>
        simp [throttleReq, throttleDrain, if_neg hd] at hy
        right; rw [hy]
      | some u =>
        by_cases hdw : t < d + W
        · simp [throttleReq, throttleDrain, if_neg hd, if_pos hdw] at hy
          left; exact ⟨u, d, rfl, by rw [hy]⟩
        · simp [throttleReq, throttleDrain, if_neg hd, if_neg hdw] at hy
          rcases hy with hy | hy
          · left; exact ⟨u, d, rfl, by rw [hy]⟩
          · right; rw [hy]

/-- A final flush only ever emits the pending trailing value. -/
theorem throttleFlush_out {α : Type} (s : TState α) :
    ∀ y ∈ throttleFlush s, ∃ u d, s = TState.window (some u) d ∧ y.2 = u := by
  intro y hy
  cases s with
  | idle => simp [throttleFlush] at hy
  | window p d =>
    cases p with
    | none => simp [throttleFlush] at hy
    | some u =>
      simp [throttleFlush] at hy
      exact ⟨u, d, rfl, by rw [hy]⟩

/-- Sampler invariant: a pending trailing vector is the current array. -/
def pendingInv (s : SamplerState) : Prop :=
  ∀ v d, s.ts = TState.window (some v) d → v = s.dist

theorem onRayStep_dist (W : ℕ) (s : SamplerState) (ev : ℕ × ℕ × Option ℚ) :
    (onRayStep W s ev).dist = s.dist.set ev.2.1 (toSensorValue ev.2.2) := by
  rcases hr : throttleReq W ev.1 (s.dist.set ev.2.1 (toSensorValue ev.2.2)) s.ts
    with ⟨out, ts1⟩
  simp [onRayStep, hr]

theorem onRayStep_ts (W : ℕ) (s : SamplerState) (ev : ℕ × ℕ × Option ℚ) :
    (onRayStep W s ev).ts =
      (throttleReq W ev.1 (s.dist.set ev.2.1 (toSensorValue ev.2.2)) s.ts).2 := by
  rcases hr : throttleReq W ev.1 (s.dist.set ev.2.1 (toSensorValue ev.2.2)) s.ts
    with ⟨out, ts1⟩
  simp [onRayStep, hr]

theorem onRayStep_log (W : ℕ) (s : SamplerState) (ev : ℕ × ℕ × Option ℚ) :
    (onRayStep W s ev).log =
      s.log ++
        (throttleReq W ev.1 (s.dist.set ev.2.1 (toSensorValue ev.2.2)) s.ts).1 := by
  rcases hr : throttleReq W ev.1 (s.dist.set ev.2.1 (toSensorValue ev.2.2)) s.ts
    with ⟨out, ts1⟩
  simp [onRayStep, hr]

/-- A ray write always re-establishes the pending invariant, because the
pending value becomes the post-write array. -/
theorem pendingInv_step (W : ℕ) (s : SamplerState) (ev : ℕ × ℕ × Option ℚ) :
    pendingInv (onRayStep W s ev) := by
  intro v d hv
  rw [onRayStep_ts] at hv
  rw [onRayStep_dist]
  exact throttleReq_pending _ _ _ _ v d hv

/-- Master invariant of a sampler run: array length preserved, pending
trailing vector is the current array, and every logged delivery has the
preserved length. -/
theorem sampler_foldl_inv (W n : ℕ) (evs : List (ℕ × ℕ × Option ℚ)) :
    ∀ s : SamplerState, pendingInv s →
      s.dist.length = n → (∀ y ∈ s.log, y.2.length = n) →
      (evs.foldl (onRayStep W) s).dist.length = n ∧
      pendingInv (evs.foldl (onRayStep W) s) ∧
      (∀ y ∈ (evs.foldl (onRayStep W) s).log, y.2.length = n) := by
  induction evs with
  | nil => intro s h1 h2 h3; exact ⟨h2, h1, h3⟩
  | cons ev evs ih =>
    intro s h1 h2 h3
    simp only [List.foldl_cons]
    refine ih (onRayStep W s ev) (pendingInv_step W s ev) ?_ ?_
    · rw [onRayStep_dist, List.length_set]; exact h2
    · intro y hy
      rw [onRayStep_log] at hy
      rcases List.mem_append.1 hy with hy | hy
      · exact h3 y hy
      · rcases throttleReq_out _ _ _ _ y hy with ⟨u, d, hts, hyu⟩ | hyv
        · rw [hyu, h1 u d hts]; exact h2
        · rw [hyv, List.length_set]; exact h2

/-- `onRay` never writes `undefined`: a number stays a number and any
non-number becomes `null` (Sensors.tsx lines 33-35). -/
theorem toSensorValue_numOrNull (d : Option ℚ) :
    numOrNull (toSensorValue d) = true := by
  cases d <;> rfl

/-- Pointwise coverage: if the events write index `j` (or slot `j` was
already a number-or-null), then after the run slot `j` is a
number-or-null. -/
theorem sampler_cover (W : ℕ) (evs : List (ℕ × ℕ × Option ℚ)) :
    ∀ (s : SamplerState) (j : ℕ), j < s.dist.length →
      ((∃ ev ∈ evs, ev.2.1 = j) ∨
        (∃ x, s.dist[j]? = some x ∧ numOrNull x = true)) →
      ∃ x, ((evs.foldl (onRayStep W) s).dist)[j]? = some x ∧
        numOrNull x = true := by
  induction evs with
  | nil =>
    intro s j hj h
    rcases h with ⟨ev, hev, _⟩ | h
    · exact absurd hev (List.not_mem_nil ev)
    · exact h
  | cons ev evs ih =>
    intro s j hj h
    simp only [List.foldl_cons]
    have hlen : j < (onRayStep W s ev).dist.length := by
      rw [onRayStep_dist, List.length_set]; exact hj
    by_cases hje : ev.2.1 = j
    · refine ih (onRayStep W s ev) j hlen
        (Or.inr ⟨toSensorValue ev.2.2, ?_, toSensorValue_numOrNull ev.2.2⟩)
      rw [onRayStep_dist, hje]
      exact List.getElem?_set_self hj
    · rcases h with ⟨ev2, hev2, hj2⟩ | ⟨x, hx, hxc⟩
      · rcases List.mem_cons.1 hev2 with rfl | hev2
        · exact absurd hj2 hje
        · exact ih _ j hlen (Or.inl ⟨ev2, hev2, hj2⟩)
      · refine ih _ j hlen (Or.inr ⟨x, ?_, hxc⟩)
        rw [onRayStep_dist, List.getElem?_set_ne hje]
        exact hx

/-- If the events cover every index below `n`, the end-of-run array
holds only numbers-or-nulls. -/
theorem samplerRun_all_numOrNull (W n : ℕ) (evs : List (ℕ × ℕ × Option ℚ))
    (hcov : ∀ j, j < n → ∃ ev ∈ evs, ev.2.1 = j) :
    ∀ x ∈ (samplerRun W n evs).dist, numOrNull x = true := by
  intro x hx
  obtain ⟨j, hj⟩ := List.getElem?_of_mem hx
  have hlen : (samplerRun W n evs).dist.length = n :=
    (sampler_foldl_inv W n evs (samplerInit n)
      (fun v d h => by simp [samplerInit] at h)
      (by simp [samplerInit]) (by simp [samplerInit])).1
  have hjn : j < n := by
    rw [← hlen]
    rcases List.getElem?_eq_some.1 hj with ⟨hb, _⟩
    exact hb
  obtain ⟨x2, hx2, hc⟩ := sampler_cover W evs (samplerInit n) j
    (by simpa [samplerInit] using hjn) (Or.inl (hcov j hjn))
  have : some x = some x2 := by rw [← hj, ← hx2]; rfl
  injection this with h2
  rw [h2]
  exact hc

/-- From a clean-array state onward, every newly logged delivery carries
only numbers-or-nulls, and the array and pending invariants persist. -/
theorem sampler_clean_tail (W : ℕ) (evs : List (ℕ × ℕ × Option ℚ)) :
    ∀ s : SamplerState, pendingInv s → (∀ x ∈ s.dist, numOrNull x = true) →
      (∀ x ∈ (evs.foldl (onRayStep W) s).dist, numOrNull x = true) ∧
      pendingInv (evs.foldl (onRayStep W) s) ∧
      ∃ tail, (evs.foldl (onRayStep W) s).log = s.log ++ tail ∧
        ∀ y ∈ tail, ∀ x ∈ y.2, numOrNull x = true := by
  induction evs with
  | nil => intro s h1 h2; exact ⟨h2, h1, [], by simp, by simp⟩
  | cons ev evs ih =>
    intro s h1 h2
    simp only [List.foldl_cons]
    have hdist1 : ∀ x ∈ (onRayStep W s ev).dist, numOrNull x = true := by
      intro x hx
      rw [onRayStep_dist] at hx
      rcases List.mem_or_eq_of_mem_set hx with hx | rfl
      · exact h2 x hx
      · exact toSensorValue_numOrNull ev.2.2
    obtain ⟨hd, hp, tail2, hlog2, hclean2⟩ :=
      ih (onRayStep W s ev) (pendingInv_step W s ev) hdist1
    refine ⟨hd, hp,
      (throttleReq W ev.1 (s.dist.set ev.2.1 (toSensorValue ev.2.2)) s.ts).1 ++ tail2,
      ?_, ?_⟩
    · rw [hlog2, onRayStep_log, List.append_assoc]
    · intro y hy
      rcases List.mem_append.1 hy with hy | hy
      · rcases throttleReq_out _ _ _ _ y hy with ⟨u, d, hts, hyu⟩ | hyv
        · intro x hx
          rw [hyu, h1 u d hts] at hx
          exact h2 x hx
        · intro x hx
          rw [hyv] at hx
          rw [← onRayStep_dist W s ev] at hx
          exact hdist1 x hx
      · exact hclean2 y hy

/-- Counterexample to C10: the first delivery of a fresh 3-ray ring after
only ray 0 has reported carries the vector [5, undefined, undefined] —
slots 1 and 2 still hold the construction-time `undefined` fill, which is
neither a number nor null. -/
theorem claim_c10_counterexample :
    samplerOutput 50 3 [(0, 0, some 5)] =
      [(0, [.num 5, .undef, .undef])] ∧
    ([SensorValue.num 5, SensorValue.undef, SensorValue.undef].all numOrNull)
      = false := by
  constructor
  · decide
  · decide

/-- C10 amended: every delivered vector has length exactly N (unchanged
since construction); each write lands at its own ray index; and each
element is a number, null, or the construction-time `undefined` fill —
once every ray index below N has reported at least once, all subsequent
deliveries (and the final trailing one) contain only numbers and nulls. -/
theorem claim_c10_vector_invariants :
    (∀ (W n : ℕ) (evs : List (ℕ × ℕ × Option ℚ)),
      ∀ y ∈ samplerOutput W n evs, y.2.length = n) ∧
    (∀ (W : ℕ) (s : SamplerState) (ev : ℕ × ℕ × Option ℚ),
      ev.2.1 < s.dist.length →
      (onRayStep W s ev).dist[ev.2.1]? = some (toSensorValue ev.2.2)) ∧
    (∀ (W n : ℕ) (evs1 evs2 : List (ℕ × ℕ × Option ℚ)),
      (∀ j, j < n → ∃ ev ∈ evs1, ev.2.1 = j) →
      ∃ tail,
        samplerOutput W n (evs1 ++ evs2) = (samplerRun W n evs1).log ++ tail ∧
        ∀ y ∈ tail, ∀ x ∈ y.2, numOrNull x = true) := by
  refine ⟨?_, ?_, ?_⟩
  · intro W n evs y hy
    obtain ⟨hlen, hpend, hlog⟩ :=
      sampler_foldl_inv W n evs (samplerInit n)
        (fun v d h => by simp [samplerInit] at h)
        (by simp [samplerInit]) (by simp [samplerInit])
    rcases List.mem_append.1 hy with hy | hy
    · exact hlog y hy
    · obtain ⟨u, d, hts, hyu⟩ := throttleFlush_out _ y hy
      rw [hyu, hpend u d hts]
      exact hlen
  · intro W s ev h
    rw [onRayStep_dist]
    exact List.getElem?_set_self h
  · intro W n evs1 evs2 hcov
    have hrun1 := sampler_foldl_inv W n evs1 (samplerInit n)
      (fun v d h => by simp [samplerInit] at h)
      (by simp [samplerInit]) (by simp [samplerInit])
    have hclean1 : ∀ x ∈ (samplerRun W n evs1).dist, numOrNull x = true :=
      samplerRun_all_numOrNull W n evs1 hcov
    obtain ⟨hdist2, hpend2, tail2, hlog2, hclean2⟩ :=
      sampler_clean_tail W evs2 (samplerRun W n evs1) hrun1.2.1 hclean1
    refine ⟨tail2 ++ throttleFlush (samplerRun W n (evs1 ++ evs2)).ts, ?_, ?_⟩
    · rw [samplerOutput]
      have hsplit : samplerRun W n (evs1 ++ evs2) =
          evs2.foldl (onRayStep W) (samplerRun W n evs1) := by
        rw [samplerRun, samplerRun, List.foldl_append]
      rw [hsplit, hlog2, List.append_assoc, ← hsplit]
    · intro y hy
      rcases List.mem_append.1 hy with hy | hy
      · exact hclean2 y hy
      · obtain ⟨u, d, hts, hyu⟩ := throttleFlush_out _ y hy
        intro x hx
        have hsplit : samplerRun W n (evs1 ++ evs2) =
            evs2.foldl (onRayStep W) (samplerRun W n evs1) := by
          rw [samplerRun, samplerRun, List.foldl_append]
        rw [hsplit] at hts
        rw [hyu, hpend2 u d hts] at hx
        exact hdist2 x hx

/-- Witness for the amended C10: the write of ray 1 lands at slot 1, and
once both rays of a 2-ray ring have reported, every delivery past the
first tick's log is number-or-null only. -/
theorem claim_c10_vector_invariants_witness :
    (onRayStep 50 (samplerInit 2) (0, 1, none)).dist[1]? =
      some (toSensorValue none) ∧
    (∃ tail,
      samplerOutput 50 2 ([(0, 0, some 7), (0, 1, none)] ++ []) =
        (samplerRun 50 2 [(0, 0, some 7), (0, 1, none)]).log ++ tail ∧
      ∀ y ∈ tail, ∀ x ∈ y.2, numOrNull x = true) :=
  ⟨claim_c10_vector_invariants.2.1 50 (samplerInit 2) (0, 1, none) (by decide),
   claim_c10_vector_invariants.2.2 50 2 [(0, 0, some 7), (0, 1, none)] []
     (by decide)⟩
